import Mathlib

/-! Verification of `inwx-dns-recordmaster`.

A shallow embedding of the record-synchronisation logic of the
`inwx-dns-recordmaster` repository, together with theorems settling the
frozen claims about its specification.

Conventions of the embedding:

* Python `int` is `Int`, Python `str` is `String` (compared code-point-wise,
  as Python does), Python `None`-able ints are `Option Int`.
* The similarity scores of `difflib` are floats in Python; here they are
  exact rationals represented as numerator/denominator pairs of naturals
  compared by cross-multiplication.  For the string lengths that occur in
  DNS records the float comparisons of CPython agree exactly with the
  rational ones (the gaps between distinct scores are far larger than one
  ulp), so this is a faithful model.
* Mutable dataclasses become immutable structures threaded through folds;
  mutation of a record inside a list becomes `List.set` at its index.
* Loops whose termination is not structural are given an explicit fuel
  argument that provably dominates the number of iterations the Python
  loop can perform.
-/

namespace RM

/-! ## Data model (`_data.py`)

`Record` models the dataclass of `_data.py`.  Only the six attributes of
`RECORD_KEYS = ("id", "name", "type", "content", "ttl", "prio")` are kept:
the remaining `urlRedirect*`/`urlAppend` attributes are never read by the
matching and syncing code (they are not members of `RECORD_KEYS`).
The Python attribute `prio` is spelled `priority` here. -/

structure Record where
  id : Option Int := none
  name : String := ""
  type : String := ""
  content : String := ""
  ttl : Int := 3600
  priority : Int := 0
deriving DecidableEq

/-- The default `Record`, with the dataclass default for every field. -/
def defRec : Record := {}

instance : Inhabited Record := ⟨defRec⟩

/-- Python `DomainStats` of `_data.py`.  Python integers, so `Int`. -/
structure DomainStats where
  total_remote : Int := 0
  updated : Int := 0
  added : Int := 0
  deleted : Int := 0
  ignored : Int := 0
  unchanged : Int := 0
  changed : Int := 0
deriving DecidableEq

/-- Python `DomainStats.stats_calc` of `_data.py` (lines 77-93): sets the two
derived fields from the primary counters; everything else is unchanged. -/
def statsCalc (s : DomainStats) : DomainStats :=
  { s with
    unchanged := s.total_remote - s.updated - s.deleted
    changed := s.updated + s.added + s.deleted }

/-- Python truthiness of a record `id` (`None` and `0` are falsy). -/
def idTruthy : Option Int → Bool
  | none => false
  | some n => decide (n ≠ 0)

/-! ## The similarity machinery of `difflib`

`_match_records.py` calls `difflib.get_close_matches(rem_rec_content,
[loc_rec.content ...], n=10, cutoff=0.6)`.  The definitions below embed
CPython's `difflib.SequenceMatcher` (with `isjunk=None`, `autojunk=True`)
and `get_close_matches`/`heapq.nlargest` for that call.  Sequence `a` is
the candidate (`set_seq1`), sequence `b` is the word (`set_seq2`). -/

/-- All positions of character `c` in `b`, ascending: the `b2j` lists that
`SequenceMatcher.__chain_b` builds by enumerating `b`. -/
def b2jAll (b : List Char) (c : Char) : List Nat :=
  (List.range b.length).filter fun j => decide (b.getD j ' ' = c)

/-- The `autojunk` heuristic of `__chain_b`: for `len(b) >= 200`, characters
occurring more than `len(b) // 100 + 1` times are dropped from `b2j`. -/
def isPopular (b : List Char) (c : Char) : Bool :=
  decide (200 ≤ b.length) && decide (b.length / 100 + 1 < (b2jAll b c).length)

/-- Python `b2j` lookup after junk/popular purging (`isjunk=None`, so only the
popularity purge applies; the `bjunk` set stays empty). -/
def b2j (b : List Char) (c : Char) : List Nat :=
  if isPopular b c then [] else b2jAll b c

/-- One row of the `find_longest_match` chain-building loop: for row `i`
(character `a[i]`), fold over the `b2j` positions `j` of that character that
lie in `[blo, bhi)`, building the new `j2len` map and updating the best
block.  `k = j2len.get(j-1, 0) + 1`; a `j2len` key of `-1` never exists, so
`j = 0` reads `0`.  In Python the best update sets `besti, bestj` to
`i-k+1, j-k+1`; `k ≤ i+1` and `k ≤ j+1` always hold there, so the truncated
`Nat` subtractions below are exact. -/
def flmRow (j2lenOld : Nat → Nat) (i : Nat) (js : List Nat)
    (best : Nat × Nat × Nat) : (Nat → Nat) × (Nat × Nat × Nat) :=
  js.foldl
    (fun st j =>
      let k := (if j = 0 then 0 else j2lenOld (j - 1)) + 1
      let m := fun x => if x = j then k else st.1 x
      if st.2.2.2 < k then (m, (i + 1 - k, j + 1 - k, k)) else (m, st.2))
    ((fun _ => 0), best)

/-- The main loop of `find_longest_match` over rows `i ∈ [alo, ahi)`.
Python `continue`s on `j < blo` and `break`s on `j >= bhi`; because the
`b2j` position lists are ascending this is exactly a filter to `[blo, bhi)`.
Result: `(besti, bestj, bestsize)` before the extension loops. -/
def flmMain (a b : List Char) (alo ahi blo bhi : Nat) : Nat × Nat × Nat :=
  ((List.range' alo (ahi - alo)).foldl
    (fun st i =>
      flmRow st.1 i
        ((b2j b (a.getD i ' ')).filter fun j => decide (blo ≤ j) && decide (j < bhi))
        st.2)
    ((fun _ => 0), (alo, blo, 0))).2

/-- First extension loop of `find_longest_match`: extend the best block
backwards over equal non-junk characters.  (`bjunk` is empty here, so the
junk variants of the extension loops never fire and are omitted.)  The loop
decrements `besti`, so `besti` itself bounds the iteration count and is the
fuel passed at the call site. -/
def extendBack (a b : List Char) (alo blo : Nat) :
    Nat → Nat × Nat × Nat → Nat × Nat × Nat
  | 0, st => st
  | fuel + 1, st =>
    let bi := st.1
    let bj := st.2.1
    let bs := st.2.2
    if decide (alo < bi) && decide (blo < bj)
        && decide (a.getD (bi - 1) ' ' = b.getD (bj - 1) ' ') then
      extendBack a b alo blo fuel (bi - 1, bj - 1, bs + 1)
    else
      st

/-- Second extension loop of `find_longest_match`: extend the best block
forwards over equal characters.  Each step grows `besti + bestsize` while it
stays below `ahi`, so `ahi` bounds the iteration count and is the fuel. -/
def extendFwd (a b : List Char) (ahi bhi : Nat) :
    Nat → Nat × Nat × Nat → Nat × Nat × Nat
  | 0, st => st
  | fuel + 1, st =>
    let bi := st.1
    let bj := st.2.1
    let bs := st.2.2
    if decide (bi + bs < ahi) && decide (bj + bs < bhi)
        && decide (a.getD (bi + bs) ' ' = b.getD (bj + bs) ' ') then
      extendFwd a b ahi bhi fuel (bi, bj, bs + 1)
    else
      st

/-- Python `SequenceMatcher.find_longest_match(alo, ahi, blo, bhi)`. -/
def findLongestMatch (a b : List Char) (alo ahi blo bhi : Nat) : Nat × Nat × Nat :=
  let st0 := flmMain a b alo ahi blo bhi
  let st1 := extendBack a b alo blo st0.1 st0
  extendFwd a b ahi bhi ahi st1

/-- The total size of all matching blocks (the `M` of `ratio`), i.e. the
sum of the block sizes collected by `get_matching_blocks`.  The Python
`while queue` loop is modelled as a fuel recursion over the work list; the
order in which subintervals are processed does not affect the sum, and the
sorting/merging that `get_matching_blocks` does afterwards preserves it.
Each iteration strictly decreases `Σ (ahi-alo) + (bhi-blo) + 1` over the
queue, so the fuel `len(a) + len(b) + 1` used at the call site suffices. -/
def mbSum (a b : List Char) : Nat → List (Nat × Nat × Nat × Nat) → Nat
  | 0, _ => 0
  | _ + 1, [] => 0
  | fuel + 1, (alo, ahi, blo, bhi) :: rest =>
    let r := findLongestMatch a b alo ahi blo bhi
    let i := r.1
    let j := r.2.1
    let k := r.2.2
    if k = 0 then
      mbSum a b fuel rest
    else
      let q1 : List (Nat × Nat × Nat × Nat) :=
        if decide (alo < i) && decide (blo < j) then [(alo, i, blo, j)] else []
      let q2 : List (Nat × Nat × Nat × Nat) :=
        if decide (i + k < ahi) && decide (j + k < bhi) then [(i + k, ahi, j + k, bhi)] else []
      k + mbSum a b fuel (q1 ++ q2 ++ rest)

/-- Total `M` for the full sequences. -/
def matchSumOf (a b : List Char) : Nat :=
  mbSum a b (a.length + b.length + 1) [(0, a.length, 0, b.length)]

/-- Python `difflib._calculate_ratio(matches, length)` as an exact rational
`(numerator, denominator)`: `2*matches/length`, and `1.0` when `length`
is zero. -/
def calcRatioPair (m total : Nat) : Nat × Nat :=
  if total = 0 then (1, 1) else (2 * m, total)

/-- Python `SequenceMatcher.ratio()` for `a` (candidate) against `b` (word). -/
def ratioPairOf (a b : List Char) : Nat × Nat :=
  calcRatioPair (matchSumOf a b) (a.length + b.length)

/-- The matches count of `SequenceMatcher.quick_ratio()`: fold over `a`
threading the `avail` map; `numb` starts at the count of the character in
`b` and is decremented (possibly below zero, hence `Int`) at each use. -/
def quickMatches (a b : List Char) : Nat :=
  (a.foldl
    (fun (st : (Char → Option Int) × Nat) c =>
      let numb : Int :=
        match st.1 c with
        | some n => n
        | none => ((b.filter fun d => decide (d = c)).length : Int)
      ((fun x => if x = c then some (numb - 1) else st.1 x),
       if 0 < numb then st.2 + 1 else st.2))
    ((fun _ => none), 0)).2

/-- Python `SequenceMatcher.quick_ratio()`. -/
def quickRatioPairOf (a b : List Char) : Nat × Nat :=
  calcRatioPair (quickMatches a b) (a.length + b.length)

/-- Python `SequenceMatcher.real_quick_ratio()`. -/
def realQuickRatioPairOf (a b : List Char) : Nat × Nat :=
  calcRatioPair (min a.length b.length) (a.length + b.length)

/-- Comparison `p ≥ q` for ratio pairs (all denominators used are positive). -/
def rGe (p q : Nat × Nat) : Bool := decide (q.1 * p.2 ≤ p.1 * q.2)

/-- Comparison `p > q` for ratio pairs. -/
def rGt (p q : Nat × Nat) : Bool := decide (q.1 * p.2 < p.1 * q.2)

/-- Comparison `p = q` for ratio pairs. -/
def rEq (p q : Nat × Nat) : Bool := decide (p.1 * q.2 = q.1 * p.2)

/-- Python string `<`: code-point lexicographic comparison. -/
def pyStrLt : List Char → List Char → Bool
  | [], [] => false
  | [], _ :: _ => true
  | _ :: _, [] => false
  | c :: cs, d :: ds => if c = d then pyStrLt cs ds else decide (c < d)

/-- Python `>` on the `(score, string)` tuples that `get_close_matches`
hands to `heapq.nlargest`: score first, string as tie-break. -/
def scorePairGt (p q : (Nat × Nat) × List Char) : Bool :=
  rGt p.1 q.1 || (rEq p.1 q.1 && pyStrLt q.2 p.2)

/-- Insert `x` into a descending-sorted list, after every element strictly
greater than it (so equal elements keep their original relative order). -/
def insertDescStable {α : Type} (gt : α → α → Bool) (x : α) : List α → List α
  | [] => [x]
  | y :: ys => if gt y x then y :: insertDescStable gt x ys else x :: y :: ys

/-- Stable descending sort: the order produced by Python
`sorted(result, reverse=True)`, which is also what `heapq.nlargest(n, result)`
returns (its documentation and implementation make it equivalent to
`sorted(iterable, reverse=True)[:n]`, ties resolved stably). -/
def sortDescStable {α : Type} (gt : α → α → Bool) : List α → List α
  | [] => []
  | x :: xs => insertDescStable gt x (sortDescStable gt xs)

/-- The `result` list of `get_close_matches`: a possibility is kept, as a
`(score, string)` pair, when its `real_quick_ratio`, `quick_ratio` and
`ratio` against `word` all reach the cutoff `cutoffNum / cutoffDen`. -/
def gcmResult (word : List Char) (cutoffNum cutoffDen : Nat)
    (possibilities : List (List Char)) : List ((Nat × Nat) × List Char) :=
  possibilities.filterMap fun x =>
    if rGe (realQuickRatioPairOf x word) (cutoffNum, cutoffDen)
        && rGe (quickRatioPairOf x word) (cutoffNum, cutoffDen)
        && rGe (ratioPairOf x word) (cutoffNum, cutoffDen)
    then some (ratioPairOf x word, x)
    else none

/-- Python `difflib.get_close_matches(word, possibilities, n, cutoff)` with the
cutoff given as the exact rational `cutoffNum / cutoffDen`: the survivors
of `gcmResult` are ordered by `nlargest(n, result)` and the best `n`
strings returned. -/
def getCloseMatches (word : List Char) (n : Nat) (cutoffNum cutoffDen : Nat)
    (possibilities : List (List Char)) : List (List Char) :=
  ((sortDescStable scorePairGt (gcmResult word cutoffNum cutoffDen possibilities)).take
    n).map fun p => p.2

/-! ## The matcher (`_match_records.py`)

A `Domain`'s mutable `local_records` list is threaded through the fold as a
`List Record`; assigning the remote id to a matched local record object
becomes `List.set` at that record's index. -/

/-- Python `_find_partial_matches`: the indices (in order) of the local records
that have a falsy `id` (`not loc_rec.id`) and share `name` and `type` with
the remote record.  Python returns the record objects; indices identify
them uniquely, and where two candidate objects have equal content the
`next(...)` lookups below pick the first index, exactly as Python's object
scan picks the first matching object. -/
def candIdx (locals : List Record) (rem : Record) : List Nat :=
  (List.range locals.length).filter fun i =>
    let l := locals.getD i defRec
    !idTruthy l.id && decide (l.name = rem.name) && decide (l.type = rem.type)

/-- Python `_assign_remote_id`: the local record at index `i` receives the remote
record's `id` (the only mutation the matcher performs). -/
def assignRemoteId (locals : List Record) (i : Nat) (rem : Record) : List Record :=
  locals.set i { locals.getD i defRec with id := rem.id }

/-- Python `_find_closest_matches` restricted to what `_process_multiple_matches`
consumes: the contents of the candidate records are handed to
`get_close_matches(rem_rec.content, ..., n=10, cutoff=0.6)` and each
returned content is mapped back to the first candidate index carrying it
(Python: `next(loc_rec for loc_rec in partial_matches if loc_rec.content ==
matched_content)`, which cannot fail because every returned content is one
of the candidates' contents). -/
def closestIdx (locals : List Record) (pm : List Nat) (rem : Record) : List Nat :=
  (getCloseMatches rem.content.data 10 3 5
      (pm.map fun i => (locals.getD i defRec).content.data)).filterMap
    fun mc => pm.find? fun i => decide ((locals.getD i defRec).content.data = mc)

/-- One iteration of the loop in `match_remote_to_local_records` for the
remote record `rem`, acting on the state `(local records, unmatched remote
records)`:
* exactly one candidate: assign the remote id to it;
* several candidates: assign to `closest_matches[0]` when the filtered
  list is non-empty, otherwise append `rem` to the unmatched list;
* no candidate: append `rem` to the unmatched list. -/
def matchStep (st : List Record × List Record) (rem : Record) :
    List Record × List Record :=
  let locals := st.1
  let um := st.2
  let pm := candIdx locals rem
  if pm.length = 1 then
    (assignRemoteId locals (pm.headD 0) rem, um)
  else if 1 < pm.length then
    match closestIdx locals pm rem with
    | [] => (locals, um ++ [rem])
    | i :: _ => (assignRemoteId locals i rem, um)
  else
    (locals, um ++ [rem])

/-- Python `match_remote_to_local_records`: fold `matchStep` over the remote
records, starting from the local records and an empty unmatched list;
returns the updated local records and the unmatched remote records. -/
def matchRemoteToLocalRecords (locals remotes : List Record) :
    List Record × List Record :=
  remotes.foldl matchStep (locals, [])

/-! ## Record attributes and API payloads (`_sync_records.py`, `_api.py`) -/

/-- A Python attribute value as it appears in API payloads. -/
inductive Val
  | vNone
  | vInt (n : Int)
  | vStr (s : String)
deriving DecidableEq

/-- Python truthiness of an attribute value. -/
def Val.truthy : Val → Bool
  | .vNone => false
  | .vInt n => decide (n ≠ 0)
  | .vStr s => decide (s ≠ "")

/-- The keys of `RECORD_KEYS = ("id", "name", "type", "content", "ttl",
"prio")`; `prio` is spelled `priority` here. -/
inductive RKey
  | id
  | name
  | type
  | content
  | ttl
  | priority
deriving DecidableEq

/-- Python `RECORD_KEYS` in order. -/
def RECORD_KEYS : List RKey := [.id, .name, .type, .content, .ttl, .priority]

/-- Python `getattr(rec, key)` for the six record keys. -/
def getattr (r : Record) : RKey → Val
  | .id => match r.id with
    | none => .vNone
    | some n => .vInt n
  | .name => .vStr r.name
  | .type => .vStr r.type
  | .content => .vStr r.content
  | .ttl => .vInt r.ttl
  | .priority => .vInt r.priority

/-- The change set collected by `sync_existing_local_to_remote` for one
matched pair: for each key of `RECORD_KEYS[3:]` (`content`, `ttl`, `prio`),
the local value is entered under that key iff it differs from the remote
value (`if loc_val != rem_val: changes[key] = loc_val`). -/
def recordChanges (loc rem : Record) : List (RKey × Val) :=
  (RECORD_KEYS.drop 3).filterMap fun k =>
    if getattr loc k ≠ getattr rem k then some (k, getattr loc k) else none

/-- The creation payload built by `create_missing_at_remote` for one
record: every key of `RECORD_KEYS` whose value is truthy
(`if value := getattr(rec, key): newrecord[key] = value`). -/
def newRecordPayload (rec : Record) : List (RKey × Val) :=
  RECORD_KEYS.filterMap fun k =>
    if (getattr rec k).truthy then some (k, getattr rec k) else none

/-- The API calls the sync phase routes through `inwx_api`.  The read-only
`nameserver.info` fetch of `convert_remote_records_to_data` is included so
that "contacting the remote service" is visible in the traces. -/
inductive ApiCall
  | updateRecord (id : Option Int) (changes : List (RKey × Val))
  | createRecord (domain : String) (payload : List (RKey × Val))
  | deleteRecord (id : Option Int)
  | nameserverInfo (domain : String)
deriving DecidableEq

/-- Whether a call mutates remote state (`nameserver.info` only reads). -/
def ApiCall.isMutation : ApiCall → Bool
  | .updateRecord _ _ => true
  | .createRecord _ _ => true
  | .deleteRecord _ => true
  | .nameserverInfo _ => false

/-- The execution state threaded through the sync phase: the pending
interactive stdin answers (an empty list means every prompt is answered
with the default `yes`), the calls handed to `inwx_api` (`attempted`), the
calls actually sent to INWX (`executed`), and the domain statistics. -/
structure ExecState where
  answers : List Bool := []
  attempted : List ApiCall := []
  executed : List ApiCall := []
  stats : DomainStats := {}
deriving DecidableEq

/-- Python `inwx_api(api, method, interactive=..., dry=..., **params)` of
`_api.py`: when `interactive`, the next stdin answer is consumed (default
`yes` when the user just presses return) and a declined call returns `{}`
without touching the API; then a dry run returns `{}` without touching the
API; otherwise the call is executed.  The wrapper records the call as
attempted in every case and as executed only when it reaches
`api.call_api`. -/
def inwxApi (interactive dry : Bool) (call : ApiCall) (st : ExecState) : ExecState :=
  let ans := if interactive then st.answers.headD true else true
  let rest := if interactive then st.answers.tail else st.answers
  let made := (!interactive || ans) && !dry
  { st with
    answers := rest
    attempted := st.attempted ++ [call]
    executed := if made then st.executed ++ [call] else st.executed }

/-- The body of the loop of `sync_existing_local_to_remote` for one
matched local record: look up the remote record with the same id
(`next(...)`; in the sync pipeline the id was assigned by the matcher from
exactly such a remote record, so the lookup succeeds and the `getD defRec`
fallback is never taken); collect the change set; when it is non-empty,
issue `nameserver.updateRecord` and afterwards increment
`stats.updated`. -/
def syncExistingStep (remotes : List Record) (dry interactive : Bool)
    (st : ExecState) (loc : Record) : ExecState :=
  let rem := (remotes.find? fun r => r.id = loc.id).getD defRec
  let changes := recordChanges loc rem
  if changes = [] then st
  else
    let st := inwxApi interactive dry (.updateRecord loc.id changes) st
    { st with stats := { st.stats with updated := st.stats.updated + 1 } }

/-- Python `sync_existing_local_to_remote`: loop over the local records with a
truthy `id` (`if loc_rec.id`). -/
def syncExistingLocalToRemote (locals remotes : List Record)
    (dry interactive : Bool) (st : ExecState) : ExecState :=
  (locals.filter fun l => idTruthy l.id).foldl (syncExistingStep remotes dry interactive) st

/-- The body of the loop of `create_missing_at_remote` for one record:
issue `nameserver.createRecord` with the truthy-attribute payload. -/
def createMissingStep (domainName : String) (dry interactive : Bool)
    (st : ExecState) (rec : Record) : ExecState :=
  inwxApi interactive dry (.createRecord domainName (newRecordPayload rec)) st

/-- Python `create_missing_at_remote`: issue one `nameserver.createRecord` per
record, then (outside the loop) add `len(records)` to `stats.added`. -/
def createMissingAtRemote (domainName : String) (records : List Record)
    (dry interactive : Bool) (st : ExecState) : ExecState :=
  let st := records.foldl (createMissingStep domainName dry interactive) st
  { st with stats := { st.stats with added := st.stats.added + records.length } }

/-- The body of the loop of `delete_unconfigured_at_remote` for one record:
when its `type` is not in `ignore_types` (Python `in` on a list of strings:
case-sensitive equality), issue `nameserver.deleteRecord` and increment
`stats.deleted`; otherwise only increment `stats.ignored`. -/
def deleteStep (ignoreTypes : List String) (dry interactive : Bool)
    (st : ExecState) (rec : Record) : ExecState :=
  if rec.type ∉ ignoreTypes then
    let st := inwxApi interactive dry (.deleteRecord rec.id) st
    { st with stats := { st.stats with deleted := st.stats.deleted + 1 } }
  else
    { st with stats := { st.stats with ignored := st.stats.ignored + 1 } }

/-- Python `delete_unconfigured_at_remote`: loop `deleteStep` over the unmatched
remote records. -/
def deleteUnconfiguredAtRemote (records : List Record) (ignoreTypes : List String)
    (dry interactive : Bool) (st : ExecState) : ExecState :=
  records.foldl (deleteStep ignoreTypes dry interactive) st

/-! ## Local configuration checking (`_get_records.py`) and the per-domain
run (`main.py`, `sync`)

A local record as it comes out of `convert_local_records_to_data` can carry
arbitrary YAML scalars in `ttl`/`prio` (`import_records` just `setattr`s
them), so the pre-validation shape keeps those two fields as raw values. -/

/-- A raw YAML scalar for `ttl`/`prio`: an integer or something else
(modelled by its string spelling).  `isinstance(x, int)` is `isInt`. -/
inductive RawVal
  | rInt (n : Int)
  | rStr (s : String)
deriving DecidableEq

/-- Python `isinstance(value, int)`. -/
def RawVal.isInt : RawVal → Bool
  | .rInt _ => true
  | .rStr _ => false

/-- A local record before `check_local_records_config` has validated it. -/
structure RawRecord where
  id : Option Int := none
  name : String := ""
  type : String := ""
  content : String := ""
  ttl : RawVal := .rInt 3600
  priority : RawVal := .rInt 0
deriving DecidableEq

instance : Inhabited RawRecord := ⟨{}⟩

/-- The `(type, name, content)` signature used by the duplicate check. -/
def RawRecord.sig (r : RawRecord) : String × String × String :=
  (r.type, r.name, r.content)

/-- The three configuration errors `check_local_records_config` aborts on,
in the order the function tests them. -/
inductive ConfigError
  | idsSet
  | duplicateSignature
  | nonIntValues
deriving DecidableEq

/-- The duplicate scan of `check_local_records_config`: fold over the
records threading the `seen` signature set; a record whose signature was
seen before lands in `duplicates`. -/
def duplicateSigs (records : List RawRecord) : List RawRecord :=
  (records.foldl
    (fun (st : List (String × String × String) × List RawRecord) rec =>
      if rec.sig ∈ st.1 then (st.1, st.2 ++ [rec])
      else (st.1 ++ [rec.sig], st.2))
    ([], [])).2

/-- Python `check_local_records_config` (lines 102-149): `sys.exit(1)` on local
ids (`rec.id is not None`), then on duplicate `(type, name, content)`
signatures, then on non-integer `ttl`/`prio` values; `none` means the
configuration passed. -/
def checkLocalRecordsConfig (records : List RawRecord) : Option ConfigError :=
  if (records.filter fun r => r.id ≠ none) ≠ [] then
    some .idsSet
  else if duplicateSigs records ≠ [] then
    some .duplicateSignature
  else if (records.filter fun r => !r.ttl.isInt || !r.priority.isInt) ≠ [] then
    some .nonIntValues
  else
    none

/-- A validated raw record as a `Record`.  After
`check_local_records_config` passed, `ttl` and `prio` are integers; the
fallback `0` of the projection is never taken in the pipeline. -/
def toRecord (r : RawRecord) : Record :=
  { id := r.id
    name := r.name
    type := r.type
    content := r.content
    ttl := match r.ttl with | .rInt n => n | .rStr _ => 0
    priority := match r.priority with | .rInt n => n | .rStr _ => 0 }

/-- The body of `main.sync` for one domain, from the local configuration to
the last mutation:

1. `check_local_records_config` — on a configuration error the process
   exits (`sys.exit(1)`) before the remote service is contacted and before
   any mutation: modelled as `Except.error`;
2. `convert_remote_records_to_data` — the read-only `nameserver.info`
   fetch, issued through `inwx_api` without `interactive`/`dry`, so it is
   executed even in a dry run;
3. `match_remote_to_local_records`, then `unmatched_local` (the local
   records still with a falsy id);
4. `sync_existing_local_to_remote`, `create_missing_at_remote`, and —
   unless `--preserve-remote` — `delete_unconfigured_at_remote`.

`sync` never assigns `stats.total_remote` and never calls
`DomainStats.stats_calc`, so the final statistics keep `total_remote = 0`,
`unchanged = 0` and `changed = 0`. -/
def runDomainSync (domainName : String) (rawLocals : List RawRecord)
    (remotes : List Record) (preserveRemote dry interactive : Bool)
    (ignoreTypes : List String) (answers : List Bool) :
    Except ConfigError ExecState :=
  match checkLocalRecordsConfig rawLocals with
  | some e => .error e
  | none =>
    let locals := rawLocals.map toRecord
    let st0 : ExecState :=
      { answers := answers
        attempted := [.nameserverInfo domainName]
        executed := [.nameserverInfo domainName] }
    let m := matchRemoteToLocalRecords locals remotes
    let matched := m.1
    let unmatchedRemote := m.2
    let unmatchedLocal := matched.filter fun l => !idTruthy l.id
    let st1 := syncExistingLocalToRemote matched remotes dry interactive st0
    let st2 := createMissingAtRemote domainName unmatchedLocal dry interactive st1
    let st3 :=
      if preserveRemote then st2
      else deleteUnconfiguredAtRemote unmatchedRemote ignoreTypes dry interactive st2
    .ok st3

/-- The mutating calls actually sent to INWX by a per-domain run (none at
all when the run aborted on a configuration error). -/
def mutationsExecuted (r : Except ConfigError ExecState) : List ApiCall :=
  match r with
  | .error _ => []
  | .ok st => st.executed.filter ApiCall.isMutation

/-- Every call handed to the API wrapper by a per-domain run, the read-only
fetch included (none at all when the run aborted on a configuration
error). -/
def callsAttempted (r : Except ConfigError ExecState) : List ApiCall :=
  match r with
  | .error _ => []
  | .ok st => st.attempted

/-- The final statistics of a per-domain run. -/
def statsOf (r : Except ConfigError ExecState) : DomainStats :=
  match r with
  | .error _ => {}
  | .ok st => st.stats

/-! ## Derived notions used by the theorems -/

/-- Is the call a `nameserver.updateRecord` call? -/
def isUpdateCall : ApiCall → Bool
  | .updateRecord _ _ => true
  | _ => false

/-- Is the call a `nameserver.createRecord` call? -/
def isCreateCall : ApiCall → Bool
  | .createRecord _ _ => true
  | _ => false

/-- Is the call a `nameserver.deleteRecord` call? -/
def isDeleteCall : ApiCall → Bool
  | .deleteRecord _ => true
  | _ => false

/-- The update calls that `sync_existing_local_to_remote` hands to
`inwx_api`, read off from the loop: one `nameserver.updateRecord` per
matched local record with a non-empty change set. -/
def updateCallsFor (locals remotes : List Record) : List ApiCall :=
  (locals.filter fun l => idTruthy l.id).filterMap fun loc =>
    let rem := (remotes.find? fun r => r.id = loc.id).getD defRec
    if recordChanges loc rem = [] then none
    else some (.updateRecord loc.id (recordChanges loc rem))

/-- The create calls `create_missing_at_remote` hands to `inwx_api`. -/
def createCallsFor (domainName : String) (records : List Record) : List ApiCall :=
  records.map fun rec => .createRecord domainName (newRecordPayload rec)

/-- The delete calls `delete_unconfigured_at_remote` hands to `inwx_api`:
one per record whose type is not ignored. -/
def deleteCallsFor (records : List Record) (ignoreTypes : List String) : List ApiCall :=
  (records.filter fun rec => rec.type ∉ ignoreTypes).map fun rec => .deleteRecord rec.id

/-- Distinct positions holding truthy ids hold distinct ids: the final
remote-to-local assignment is injective. -/
def distinctTruthyIds (l : List Record) : Prop :=
  ∀ i, i < l.length → ∀ j, j < l.length → i ≠ j →
    idTruthy (l.getD i defRec).id = true →
    (l.getD i defRec).id ≠ (l.getD j defRec).id

/-- The configuration errors listed by the claim: a local record carrying a
non-null id, two local records sharing one `(type, name, content)`
signature, or a `ttl`/`prio` value that is not an integer. -/
def hasConfigErrorClaim (recs : List RawRecord) : Prop :=
  (∃ r ∈ recs, r.id ≠ none) ∨
  (∃ i j, i < j ∧ j < recs.length ∧
    (recs.getD i default).sig = (recs.getD j default).sig) ∨
  (∃ r ∈ recs, r.ttl.isInt = false ∨ r.priority.isInt = false)

/-- The per-record option of an update call, so that
`updateCallsFor locals remotes =
(locals.filter (idTruthy ·.id)).filterMap (updCallOf remotes)`. -/
def updCallOf (remotes : List Record) (loc : Record) : Option ApiCall :=
  let rem := (remotes.find? fun r => r.id = loc.id).getD defRec
  if recordChanges loc rem = [] then none
  else some (.updateRecord loc.id (recordChanges loc rem))

/-! # Theorems -/

/-! ## Plumbing lemmas about `inwx_api` and the three sync loops -/

theorem inwxApi_attempted (i d : Bool) (c : ApiCall) (st : ExecState) :
    (inwxApi i d c st).attempted = st.attempted ++ [c] := rfl

theorem inwxApi_stats (i d : Bool) (c : ApiCall) (st : ExecState) :
    (inwxApi i d c st).stats = st.stats := rfl

theorem inwxApi_executed_dry (i : Bool) (c : ApiCall) (st : ExecState) :
    (inwxApi i true c st).executed = st.executed := by
  simp [inwxApi]

theorem updateCallsFor_eq (locals remotes : List Record) :
    updateCallsFor locals remotes =
      (locals.filter fun l => idTruthy l.id).filterMap (updCallOf remotes) := rfl

theorem syncFold_attempted (remotes : List Record) (dry inter : Bool)
    (ls : List Record) : ∀ st : ExecState,
    (ls.foldl (syncExistingStep remotes dry inter) st).attempted
      = st.attempted ++ ls.filterMap (updCallOf remotes) := by
  induction ls with
  | nil => intro st; simp
  | cons loc ls ih =>
    intro st
    simp only [List.foldl_cons, List.filterMap_cons, ih, syncExistingStep, updCallOf]
    split
    · simp
    · simp [inwxApi_attempted]

theorem syncFold_updated (remotes : List Record) (dry inter : Bool)
    (ls : List Record) : ∀ st : ExecState,
    (ls.foldl (syncExistingStep remotes dry inter) st).stats.updated
      = st.stats.updated + (ls.filterMap (updCallOf remotes)).length := by
  induction ls with
  | nil => intro st; simp
  | cons loc ls ih =>
    intro st
    simp only [List.foldl_cons, List.filterMap_cons, ih, syncExistingStep, updCallOf]
    split
    · simp
    · simp [inwxApi_stats]
      omega

theorem syncFold_stats_other (remotes : List Record) (dry inter : Bool)
    (ls : List Record) : ∀ st : ExecState,
    (ls.foldl (syncExistingStep remotes dry inter) st).stats.added = st.stats.added ∧
    (ls.foldl (syncExistingStep remotes dry inter) st).stats.deleted = st.stats.deleted ∧
    (ls.foldl (syncExistingStep remotes dry inter) st).stats.ignored = st.stats.ignored := by
  induction ls with
  | nil => intro st; simp
  | cons loc ls ih =>
    intro st
    simp only [List.foldl_cons, syncExistingStep]
    split
    · exact ih st
    · simpa [inwxApi_stats] using ih _

theorem syncFold_executed_dry (remotes : List Record) (inter : Bool)
    (ls : List Record) : ∀ st : ExecState,
    (ls.foldl (syncExistingStep remotes true inter) st).executed = st.executed := by
  induction ls with
  | nil => intro st; simp
  | cons loc ls ih =>
    intro st
    simp only [List.foldl_cons, syncExistingStep]
    split
    · exact ih st
    · simpa [inwxApi_executed_dry] using ih _

theorem createFold_attempted (n : String) (dry inter : Bool)
    (ls : List Record) : ∀ st : ExecState,
    (ls.foldl (createMissingStep n dry inter) st).attempted
      = st.attempted ++ createCallsFor n ls := by
  induction ls with
  | nil => intro st; simp [createCallsFor]
  | cons rec ls ih =>
    intro st
    simp [List.foldl_cons, createCallsFor, createMissingStep, ih, inwxApi_attempted]

theorem createFold_stats (n : String) (dry inter : Bool)
    (ls : List Record) : ∀ st : ExecState,
    (ls.foldl (createMissingStep n dry inter) st).stats = st.stats := by
  induction ls with
  | nil => intro st; rfl
  | cons rec ls ih =>
    intro st
    simp [List.foldl_cons, createMissingStep, ih, inwxApi_stats]

theorem createFold_executed_dry (n : String) (inter : Bool)
    (ls : List Record) : ∀ st : ExecState,
    (ls.foldl (createMissingStep n true inter) st).executed = st.executed := by
  induction ls with
  | nil => intro st; rfl
  | cons rec ls ih =>
    intro st
    simp [List.foldl_cons, createMissingStep, ih, inwxApi_executed_dry]

theorem deleteFold_attempted (ign : List String) (dry inter : Bool)
    (ls : List Record) : ∀ st : ExecState,
    (ls.foldl (deleteStep ign dry inter) st).attempted
      = st.attempted ++ deleteCallsFor ls ign := by
  induction ls with
  | nil => intro st; simp [deleteCallsFor]
  | cons rec ls ih =>
    intro st
    simp only [List.foldl_cons, deleteStep, deleteCallsFor] at ih ⊢
    split
    · rename_i h
      simp [ih, inwxApi_attempted, List.filter_cons, h]
    · rename_i h
      simp at h
      simp [ih, List.filter_cons, h]

theorem deleteFold_deleted (ign : List String) (dry inter : Bool)
    (ls : List Record) : ∀ st : ExecState,
    (ls.foldl (deleteStep ign dry inter) st).stats.deleted
      = st.stats.deleted + ((ls.filter fun rec => rec.type ∉ ign).length : Int) := by
  induction ls with
  | nil => intro st; simp
  | cons rec ls ih =>
    intro st
    simp only [List.foldl_cons, deleteStep, List.filter_cons]
    split
    · rename_i h
      simp only [ih, inwxApi_stats]
      simp [h]
      omega
    · rename_i h
      simp at h
      simp [ih, h]

theorem deleteFold_ignored (ign : List String) (dry inter : Bool)
    (ls : List Record) : ∀ st : ExecState,
    (ls.foldl (deleteStep ign dry inter) st).stats.ignored
      = st.stats.ignored + ((ls.filter fun rec => rec.type ∈ ign).length : Int) := by
  induction ls with
  | nil => intro st; simp
  | cons rec ls ih =>
    intro st
    simp only [List.foldl_cons, deleteStep, List.filter_cons]
    split
    · rename_i h
      simp only [ih, inwxApi_stats]
      simp [h]
    · rename_i h
      simp at h
      simp [ih, h]
      omega

theorem deleteFold_stats_other (ign : List String) (dry inter : Bool)
    (ls : List Record) : ∀ st : ExecState,
    (ls.foldl (deleteStep ign dry inter) st).stats.updated = st.stats.updated ∧
    (ls.foldl (deleteStep ign dry inter) st).stats.added = st.stats.added := by
  induction ls with
  | nil => intro st; simp
  | cons rec ls ih =>
    intro st
    simp only [List.foldl_cons, deleteStep]
    split
    · simpa [inwxApi_stats] using ih _
    · simpa using ih _

theorem deleteFold_executed_dry (ign : List String) (inter : Bool)
    (ls : List Record) : ∀ st : ExecState,
    (ls.foldl (deleteStep ign true inter) st).executed = st.executed := by
  induction ls with
  | nil => intro st; rfl
  | cons rec ls ih =>
    intro st
    simp only [List.foldl_cons, deleteStep]
    split
    · simpa [inwxApi_executed_dry] using ih _
    · simpa using ih _

/-! ## Claim C1 — fields scheduled in the update change set -/

/-- Claim C1, counterexample: The claim says a mutable field is scheduled
for update only if the local value is non-empty/non-default *and* differs
from the remote value, so an empty local field never clears a previously
set remote field.  The loop of `sync_existing_local_to_remote` tests only
`loc_val != rem_val`: for a matched local record whose `content` is the
empty string (which is both empty and the dataclass default) against a
remote record with non-empty `content`, the falsy empty string *is*
entered into the change set, clearing the remote value. -/
theorem c1_counterexample :
    Val.truthy (Val.vStr "") = false ∧
    (RKey.content, Val.vStr "") ∈
      recordChanges
        { id := some 1, name := "www.example.com", type := "A", content := "" }
        { id := some 1, name := "www.example.com", type := "A",
          content := "1.2.3.4" } := by
  decide

/-- Claim C1, amended: For every matched pair, a key is in the change set
iff it is one of the mutable keys `RECORD_KEYS[3:]` (`content`, `ttl`,
`prio`) and the local value differs from the remote value; the entered
value is the local one.  There is no non-empty/non-default guard on the
local value, so an empty local field that differs from the remote one is
scheduled and clears the remote field. -/
theorem c1_update_changeset (loc rem : Record) (k : RKey) (v : Val) :
    (k, v) ∈ recordChanges loc rem ↔
      (k ∈ RECORD_KEYS.drop 3 ∧ getattr loc k ≠ getattr rem k ∧
        v = getattr loc k) := by
  simp only [recordChanges, List.mem_filterMap]
  constructor
  · rintro ⟨a, ha, hf⟩
    split at hf
    · rename_i hne
      cases hf
      exact ⟨ha, hne, rfl⟩
    · cases hf
  · rintro ⟨hk, hne, rfl⟩
    exact ⟨k, hk, by simp [hne]⟩

/-! ## Claim C9 — creation payloads -/

/-- Claim C9, counterexample: The claim says default-valued fields, such as
a `ttl` left at its default, are omitted from the creation payload.  The
loop of `create_missing_at_remote` keeps every *truthy* attribute
(`if value := getattr(rec, key)`); the dataclass default `ttl = 3600` is
truthy, so a record whose `ttl` was never set still sends
`ttl = 3600` explicitly. -/
theorem c9_counterexample :
    ({ name := "www.example.com", type := "A",
       content := "1.2.3.4" } : Record).ttl = 3600 ∧
    (RKey.ttl, Val.vInt 3600) ∈
      newRecordPayload
        { name := "www.example.com", type := "A", content := "1.2.3.4" } := by
  decide

/-- Claim C9, amended: The creation payload contains exactly the
`RECORD_KEYS` attributes whose local value is truthy: a `None` id, empty
strings, and a zero `ttl` or `prio` are omitted, while any non-zero
integer — including the dataclass default `ttl = 3600` — is included. -/
theorem c9_create_payload (rec : Record) (k : RKey) (v : Val) :
    (k, v) ∈ newRecordPayload rec ↔
      (k ∈ RECORD_KEYS ∧ v = getattr rec k ∧ Val.truthy v = true) := by
  simp only [newRecordPayload, List.mem_filterMap]
  constructor
  · rintro ⟨a, ha, hf⟩
    split at hf
    · rename_i htr
      cases hf
      exact ⟨ha, rfl, htr⟩
    · cases hf
  · rintro ⟨hk, rfl, htr⟩
    exact ⟨k, hk, by simp [htr]⟩

/-! ## Claim C4 — the derived statistics -/

/-- Claim C4: `DomainStats.stats_calc` does derive
`unchanged = total_remote - updated - deleted` and
`changed = updated + added + deleted` — but `sync` never calls it (and
never assigns `total_remote`), so at the end of a run the two equalities
fail: in the one-domain run shown (one matched record whose content
differs, so one update), the final statistics keep `changed = 0` and
`unchanged = 0` while `updated = 1`, violating both equalities. -/
theorem c4_stats_never_derived :
    (∀ s : DomainStats,
      (statsCalc s).unchanged = s.total_remote - s.updated - s.deleted ∧
      (statsCalc s).changed = s.updated + s.added + s.deleted) ∧
    ((statsOf (runDomainSync "example.com"
        [{ name := "www.example.com", type := "A", content := "1.2.3.4" }]
        [{ id := some 11, name := "www.example.com", type := "A",
           content := "5.6.7.8" }]
        false false false ["SOA"] [])).updated = 1 ∧
     (statsOf (runDomainSync "example.com"
        [{ name := "www.example.com", type := "A", content := "1.2.3.4" }]
        [{ id := some 11, name := "www.example.com", type := "A",
           content := "5.6.7.8" }]
        false false false ["SOA"] [])) =
       { total_remote := 0, updated := 1, added := 0, deleted := 0,
         ignored := 0, unchanged := 0, changed := 0 }) :=
  ⟨fun _ => ⟨rfl, rfl⟩, by decide, by decide⟩

/-! ## Claim C6 — the ignore-types filter of the deletion phase -/

/-- Claim C6: The deletion phase hands to the API wrapper exactly one
`nameserver.deleteRecord` call per unmatched remote record whose `type` is
not in the ignore-types list (`in`/`not in` on a Python list of strings:
case-sensitive string equality), and each such record increments
`deleted`; a record whose type is in the list produces no delete call and
increments `ignored` instead.  (Whether a handed-over call is actually
executed is governed by the dry-run/interactive gating of the wrapper,
claims C5/C7.) -/
theorem c6_ignore_types (records : List Record) (ign : List String)
    (dry inter : Bool) (st : ExecState) :
    (deleteUnconfiguredAtRemote records ign dry inter st).attempted
      = st.attempted ++ deleteCallsFor records ign ∧
    (deleteUnconfiguredAtRemote records ign dry inter st).stats.deleted
      = st.stats.deleted + ((records.filter fun r => r.type ∉ ign).length : Int) ∧
    (deleteUnconfiguredAtRemote records ign dry inter st).stats.ignored
      = st.stats.ignored + ((records.filter fun r => r.type ∈ ign).length : Int) :=
  ⟨deleteFold_attempted ign dry inter records st,
   deleteFold_deleted ign dry inter records st,
   deleteFold_ignored ign dry inter records st⟩

/-! ## Claim C7 — dry runs never mutate -/

/-- Claim C7: With `dry` set, a per-domain run executes no mutating call at
all, whatever the local and remote records, the interactivity setting and
the computed change sets: `inwx_api` returns before `api.call_api` for
every update, create and delete.  (The read-only `nameserver.info` fetch
is still issued, which is why the statement filters on mutating calls.) -/
theorem c7_dry_run_no_mutation (name : String) (raws : List RawRecord)
    (rems : List Record) (preserve inter : Bool) (ign : List String)
    (ans : List Bool) :
    mutationsExecuted (runDomainSync name raws rems preserve true inter ign ans)
      = [] := by
  unfold runDomainSync
  cases hc : checkLocalRecordsConfig raws with
  | some e => simp [mutationsExecuted]
  | none =>
    simp only [mutationsExecuted, syncExistingLocalToRemote, createMissingAtRemote,
      deleteUnconfiguredAtRemote]
    split
    · rw [createFold_executed_dry, syncFold_executed_dry]
      rfl
    · rw [deleteFold_executed_dry, createFold_executed_dry, syncFold_executed_dry]
      rfl

/-! ## Claim C5 — counters versus skipped calls -/

theorem syncFold_added (remotes : List Record) (dry inter : Bool)
    (ls : List Record) (st : ExecState) :
    (ls.foldl (syncExistingStep remotes dry inter) st).stats.added
      = st.stats.added :=
  (syncFold_stats_other remotes dry inter ls st).1

theorem syncFold_deleted (remotes : List Record) (dry inter : Bool)
    (ls : List Record) (st : ExecState) :
    (ls.foldl (syncExistingStep remotes dry inter) st).stats.deleted
      = st.stats.deleted :=
  (syncFold_stats_other remotes dry inter ls st).2.1

theorem deleteFold_updated (ign : List String) (dry inter : Bool)
    (ls : List Record) (st : ExecState) :
    (ls.foldl (deleteStep ign dry inter) st).stats.updated
      = st.stats.updated :=
  (deleteFold_stats_other ign dry inter ls st).1

theorem deleteFold_added (ign : List String) (dry inter : Bool)
    (ls : List Record) (st : ExecState) :
    (ls.foldl (deleteStep ign dry inter) st).stats.added
      = st.stats.added :=
  (deleteFold_stats_other ign dry inter ls st).2

theorem updateCalls_mem (locals remotes : List Record) :
    ∀ c ∈ updateCallsFor locals remotes,
      isUpdateCall c = true ∧ isCreateCall c = false ∧ isDeleteCall c = false := by
  intro c hcall
  simp only [updateCallsFor, List.mem_filterMap] at hcall
  obtain ⟨loc, _, hf⟩ := hcall
  split at hf
  · cases hf
  · cases hf
    exact ⟨rfl, rfl, rfl⟩

theorem updateCalls_countP_update (locals remotes : List Record) :
    (updateCallsFor locals remotes).countP isUpdateCall
      = (updateCallsFor locals remotes).length :=
  List.countP_eq_length.mpr fun c hcall => (updateCalls_mem locals remotes c hcall).1

theorem updateCalls_countP_create (locals remotes : List Record) :
    (updateCallsFor locals remotes).countP isCreateCall = 0 := by
  rw [List.countP_eq_zero]
  intro c hcall
  simp [(updateCalls_mem locals remotes c hcall).2.1]

theorem updateCalls_countP_delete (locals remotes : List Record) :
    (updateCallsFor locals remotes).countP isDeleteCall = 0 := by
  rw [List.countP_eq_zero]
  intro c hcall
  simp [(updateCalls_mem locals remotes c hcall).2.2]

theorem createCalls_countP_create (n : String) (records : List Record) :
    (createCallsFor n records).countP isCreateCall = records.length := by
  have h : (createCallsFor n records).countP isCreateCall
      = (createCallsFor n records).length :=
    List.countP_eq_length.mpr (by
      intro c hcall
      simp only [createCallsFor, List.mem_map] at hcall
      obtain ⟨rec, _, rfl⟩ := hcall
      rfl)
  simpa [createCallsFor] using h

theorem createCalls_countP_update (n : String) (records : List Record) :
    (createCallsFor n records).countP isUpdateCall = 0 := by
  rw [List.countP_eq_zero]
  intro c hcall
  simp only [createCallsFor, List.mem_map] at hcall
  obtain ⟨rec, _, rfl⟩ := hcall
  simp [isUpdateCall]

theorem createCalls_countP_delete (n : String) (records : List Record) :
    (createCallsFor n records).countP isDeleteCall = 0 := by
  rw [List.countP_eq_zero]
  intro c hcall
  simp only [createCallsFor, List.mem_map] at hcall
  obtain ⟨rec, _, rfl⟩ := hcall
  simp [isDeleteCall]

theorem deleteCalls_countP_delete (records : List Record) (ign : List String) :
    (deleteCallsFor records ign).countP isDeleteCall
      = (records.filter fun r => r.type ∉ ign).length := by
  have h : (deleteCallsFor records ign).countP isDeleteCall
      = (deleteCallsFor records ign).length :=
    List.countP_eq_length.mpr (by
      intro c hcall
      simp only [deleteCallsFor, List.mem_map] at hcall
      obtain ⟨rec, _, rfl⟩ := hcall
      rfl)
  simpa [deleteCallsFor] using h

theorem deleteCalls_countP_update (records : List Record) (ign : List String) :
    (deleteCallsFor records ign).countP isUpdateCall = 0 := by
  rw [List.countP_eq_zero]
  intro c hcall
  simp only [deleteCallsFor, List.mem_map] at hcall
  obtain ⟨rec, _, rfl⟩ := hcall
  simp [isUpdateCall]

theorem deleteCalls_countP_create (records : List Record) (ign : List String) :
    (deleteCallsFor records ign).countP isCreateCall = 0 := by
  rw [List.countP_eq_zero]
  intro c hcall
  simp only [deleteCallsFor, List.mem_map] at hcall
  obtain ⟨rec, _, rfl⟩ := hcall
  simp [isCreateCall]

/-- Claim C5, counterexample: The claim says a call skipped because of
dry-run mode (or a declined confirmation) must not increment the
counters.  In the dry run shown, one update is computed, no mutating call
is executed — and `stats.updated` is still incremented to `1`, because the
callers bump the counters unconditionally after `inwx_api` returns
(`_sync_records.py` increments outside any check of the wrapper's
result). -/
theorem c5_counterexample :
    mutationsExecuted (runDomainSync "example.com"
      [{ name := "www.example.com", type := "A", content := "1.2.3.4" }]
      [{ id := some 11, name := "www.example.com", type := "A",
         content := "5.6.7.8" }]
      false true false ["SOA"] []) = [] ∧
    (statsOf (runDomainSync "example.com"
      [{ name := "www.example.com", type := "A", content := "1.2.3.4" }]
      [{ id := some 11, name := "www.example.com", type := "A",
         content := "5.6.7.8" }]
      false true false ["SOA"] [])).updated = 1 := by
  decide

/-- Claim C5, amended: Every update/create/delete call *handed to the
wrapper* increments its counter exactly once — whether the call was
executed, skipped by dry-run, or declined interactively: the counters
equal the number of attempted calls of each kind (so skipped calls are
counted as if applied; the spec elsewhere documents this as a deliberate
choice for dry-run statistics). -/
theorem c5_counters (nm : String) (raws : List RawRecord) (rems : List Record)
    (preserve dry inter : Bool) (ign : List String) (ans : List Bool) :
    (statsOf (runDomainSync nm raws rems preserve dry inter ign ans)).updated
      = ((callsAttempted (runDomainSync nm raws rems preserve dry inter ign ans)).countP
          isUpdateCall : Int) ∧
    (statsOf (runDomainSync nm raws rems preserve dry inter ign ans)).added
      = ((callsAttempted (runDomainSync nm raws rems preserve dry inter ign ans)).countP
          isCreateCall : Int) ∧
    (statsOf (runDomainSync nm raws rems preserve dry inter ign ans)).deleted
      = ((callsAttempted (runDomainSync nm raws rems preserve dry inter ign ans)).countP
          isDeleteCall : Int) := by
  cases hc : checkLocalRecordsConfig raws with
  | some e => simp [runDomainSync, hc, statsOf, callsAttempted]
  | none =>
    simp only [runDomainSync, hc, statsOf, callsAttempted]
    split
    · simp only [createMissingAtRemote, syncExistingLocalToRemote]
      simp only [createFold_attempted, createFold_stats, syncFold_attempted,
        syncFold_updated, syncFold_added, syncFold_deleted, ← updateCallsFor_eq,
        List.countP_append]
      simp [isUpdateCall, isCreateCall, isDeleteCall, updateCalls_countP_update,
        updateCalls_countP_create, updateCalls_countP_delete,
        createCalls_countP_create, createCalls_countP_update,
        createCalls_countP_delete]
    · simp only [deleteUnconfiguredAtRemote, createMissingAtRemote,
        syncExistingLocalToRemote]
      simp only [deleteFold_attempted, deleteFold_deleted, deleteFold_updated,
        deleteFold_added, createFold_attempted, createFold_stats,
        syncFold_attempted, syncFold_updated, syncFold_added, syncFold_deleted,
        ← updateCallsFor_eq, List.countP_append]
      simp [isUpdateCall, isCreateCall, isDeleteCall, updateCalls_countP_update,
        updateCalls_countP_create, updateCalls_countP_delete,
        createCalls_countP_create, createCalls_countP_update,
        createCalls_countP_delete, deleteCalls_countP_delete,
        deleteCalls_countP_update, deleteCalls_countP_create]

/-! ## Lemmas about the matcher -/

theorem mem_candIdx {locals : List Record} {rem : Record} {i : Nat} :
    i ∈ candIdx locals rem ↔
      i < locals.length ∧ idTruthy (locals.getD i defRec).id = false ∧
      (locals.getD i defRec).name = rem.name ∧
      (locals.getD i defRec).type = rem.type := by
  simp [candIdx, List.mem_filter, List.mem_range, and_assoc]

theorem closestIdx_sub (locals : List Record) (pm : List Nat) (rem : Record) :
    ∀ i ∈ closestIdx locals pm rem, i ∈ pm := by
  intro i hi
  simp only [closestIdx, List.mem_filterMap] at hi
  obtain ⟨mc, _, hfind⟩ := hi
  exact List.mem_of_find?_eq_some hfind

theorem assignRemoteId_length (locals : List Record) (i : Nat) (rem : Record) :
    (assignRemoteId locals i rem).length = locals.length := by
  simp [assignRemoteId]

theorem getD_mem {l : List Record} {i : Nat} (h : i < l.length) :
    l.getD i defRec ∈ l := by
  rw [List.getD_eq_getElem?_getD, List.getElem?_eq_getElem h]
  exact List.getElem_mem h

theorem getD_assign_ne {locals : List Record} {i j : Nat} {rem : Record}
    (h : i ≠ j) :
    (assignRemoteId locals i rem).getD j defRec = locals.getD j defRec := by
  simp [assignRemoteId, List.getD_eq_getElem?_getD, List.getElem?_set_ne h]

theorem getD_assign_self {locals : List Record} {i : Nat} {rem : Record}
    (h : i < locals.length) :
    (assignRemoteId locals i rem).getD i defRec
      = { locals.getD i defRec with id := rem.id } := by
  simp [assignRemoteId, List.getD_eq_getElem?_getD, List.getElem?_set_self h,
    List.getElem?_eq_getElem h]

/-- Every step of the matcher either leaves the local records unchanged and
appends the remote record to the unmatched list, or assigns the remote id
to exactly one local record whose id was falsy. -/
theorem matchStep_cases (locals um : List Record) (rem : Record) :
    matchStep (locals, um) rem = (locals, um ++ [rem]) ∨
    ∃ i, i < locals.length ∧ idTruthy ((locals.getD i defRec).id) = false ∧
      matchStep (locals, um) rem = (assignRemoteId locals i rem, um) := by
  by_cases h1 : (candIdx locals rem).length = 1
  · right
    obtain ⟨i, hi⟩ := List.length_eq_one.mp h1
    have him : i ∈ candIdx locals rem := by simp [hi]
    have hc := mem_candIdx.mp him
    refine ⟨i, hc.1, hc.2.1, ?_⟩
    simp [matchStep, h1, hi]
  · by_cases h2 : 1 < (candIdx locals rem).length
    · cases hcl : closestIdx locals (candIdx locals rem) rem with
      | nil =>
        left
        simp [matchStep, h1, h2, hcl]
      | cons i rest =>
        right
        have him : i ∈ candIdx locals rem :=
          closestIdx_sub locals (candIdx locals rem) rem i
            (by simp [hcl])
        have hc := mem_candIdx.mp him
        refine ⟨i, hc.1, hc.2.1, ?_⟩
        simp [matchStep, h1, h2, hcl]
    · left
      simp [matchStep, h1, h2]

/-- Positions holding a truthy id are untouched by the whole matching
pass: their record (id included) survives unchanged. -/
theorem matchFold_preserves (remotes : List Record) :
    ∀ (locals um : List Record) (i : Nat), i < locals.length →
      idTruthy ((locals.getD i defRec).id) = true →
      ((remotes.foldl matchStep (locals, um)).1.getD i defRec)
        = locals.getD i defRec := by
  induction remotes with
  | nil => intro locals um i hi ht; rfl
  | cons r rs ih =>
    intro locals um i hi ht
    rcases matchStep_cases locals um r with heq | ⟨j, hj, hfj, heq⟩
    · rw [List.foldl_cons, heq]
      exact ih locals (um ++ [r]) i hi ht
    · rw [List.foldl_cons, heq]
      have hij : j ≠ i := by
        rintro rfl
        rw [ht] at hfj
        cases hfj
      have hgd : (assignRemoteId locals j r).getD i defRec
          = locals.getD i defRec := getD_assign_ne hij
      have hlen : i < (assignRemoteId locals j r).length := by
        rwa [assignRemoteId_length]
      rw [ih (assignRemoteId locals j r) um i hlen (by rw [hgd]; exact ht), hgd]

/-- The matching pass keeps truthy ids pairwise distinct, provided the
remote ids are truthy, pairwise distinct and fresh for the local list. -/
theorem matchFold_inj (remotes : List Record) :
    ∀ (locals um : List Record),
      (∀ r ∈ remotes, idTruthy r.id = true) →
      remotes.Pairwise (fun r s => r.id ≠ s.id) →
      (∀ r ∈ remotes, ∀ l ∈ locals, l.id ≠ r.id) →
      distinctTruthyIds locals →
      distinctTruthyIds (remotes.foldl matchStep (locals, um)).1 := by
  induction remotes with
  | nil => intro locals um _ _ _ hd; exact hd
  | cons r rs ih =>
    intro locals um htr hpw hfresh hd
    rcases matchStep_cases locals um r with heq | ⟨j, hj, hfj, heq⟩
    · rw [List.foldl_cons, heq]
      exact ih locals (um ++ [r])
        (fun s hs => htr s (List.mem_cons_of_mem _ hs))
        (List.pairwise_cons.mp hpw).2
        (fun s hs l hl => hfresh s (List.mem_cons_of_mem _ hs) l hl)
        hd
    · rw [List.foldl_cons, heq]
      apply ih (assignRemoteId locals j r) um
        (fun s hs => htr s (List.mem_cons_of_mem _ hs))
        (List.pairwise_cons.mp hpw).2
      · intro s hs l hl
        rcases List.mem_or_eq_of_mem_set hl with hl0 | rfl
        · exact hfresh s (List.mem_cons_of_mem _ hs) l hl0
        · simpa using (List.pairwise_cons.mp hpw).1 s hs
      · intro p hp q hq hpq htp
        rw [assignRemoteId_length] at hp hq
        by_cases hpj : p = j
        · subst hpj
          rw [getD_assign_self hj] at htp ⊢
          rw [getD_assign_ne (fun h => hpq h)]
          simp only
          intro hcon
          exact hfresh r (List.mem_cons_self r rs) (locals.getD q defRec)
            (getD_mem hq) hcon.symm
        · rw [getD_assign_ne (fun h => hpj h.symm)] at htp ⊢
          by_cases hqj : q = j
          · subst hqj
            rw [getD_assign_self hj]
            simp only
            intro hcon
            exact hfresh r (List.mem_cons_self r rs) (locals.getD p defRec)
              (getD_mem hp) hcon
          · rw [getD_assign_ne (fun h => hqj h.symm)]
            exact hd p hp q hq hpq htp

/-! ## Claim C2 — the exact-match case of the matcher -/

/-- Claim C2, counterexample: The claim quantifies over every remote record
sharing `(name, type)` with exactly one local record.  With two remote
records of the same `(name, type)` — two `A` records of one host — and one
local record, the single local record shares `(name, type)` with *both*;
it receives the first remote id, so the second remote record, for which
the sharing local record is equally unique, does not hand over its id. -/
theorem c2_counterexample :
    (([{ name := "www.example.com", type := "A", content := "1.2.3.4" }] :
        List Record).filter fun l =>
          decide (l.name = "www.example.com") && decide (l.type = "A")).length = 1 ∧
    (matchRemoteToLocalRecords
        [{ name := "www.example.com", type := "A", content := "1.2.3.4" }]
        [{ id := some 1, name := "www.example.com", type := "A",
           content := "5.6.7.8" },
         { id := some 2, name := "www.example.com", type := "A",
           content := "9.9.9.9" }]).1.map Record.id = [some 1] ∧
    (some (2 : Int) : Option Int) ≠ some 1 := by
  decide

/-- Claim C2, amended: If, at the moment a remote record is processed,
exactly one *candidate* local record — one with a still-falsy id — shares
`(name, type)` with it, that candidate receives the remote id, whatever
the contents: the assignment never consults `content` in this branch. -/
theorem c2_single_candidate (locals um : List Record) (rem : Record) (i : Nat)
    (h : candIdx locals rem = [i]) :
    matchStep (locals, um) rem = (assignRemoteId locals i rem, um) := by
  simp [matchStep, h]

theorem c2_single_candidate_witness :
    candIdx [{ name := "www.example.com", type := "A", content := "1.2.3.4" }]
      { id := some 1, name := "www.example.com", type := "A",
        content := "5.6.7.8" } = [0] ∧
    matchStep ([{ name := "www.example.com", type := "A", content := "1.2.3.4" }], [])
      { id := some 1, name := "www.example.com", type := "A",
        content := "5.6.7.8" }
      = (assignRemoteId
          [{ name := "www.example.com", type := "A", content := "1.2.3.4" }] 0
          { id := some 1, name := "www.example.com", type := "A",
            content := "5.6.7.8" }, []) :=
  ⟨by decide,
   c2_single_candidate
     [{ name := "www.example.com", type := "A", content := "1.2.3.4" }] []
     { id := some 1, name := "www.example.com", type := "A",
       content := "5.6.7.8" } 0 (by decide)⟩

/-! ## Claim C10 — the matching pass as an injective assignment -/

/-- Claim C10: Under the claim's context — remote ids truthy (INWX ids are
positive integers) and pairwise distinct — the matching pass satisfies:
(1) every step either only appends the remote record to the unmatched
list, or assigns its id to exactly one local record whose id was still
falsy, so an already-assigned (in particular non-null) id is never a
candidate slot and is never overwritten; (2) every position holding a
truthy id before the pass is untouched by it; (3) starting, as the
pipeline does, from local records whose ids are all `None`, the final
truthy ids are pairwise distinct: the remote-to-local assignment is an
injective (partially defined) mapping. -/
theorem c10_matcher_invariants (locals remotes : List Record)
    (h2 : ∀ r ∈ remotes, idTruthy r.id = true)
    (h3 : remotes.Pairwise fun r s => r.id ≠ s.id) :
    (∀ (ls um : List Record) (r : Record),
      matchStep (ls, um) r = (ls, um ++ [r]) ∨
      ∃ i, i < ls.length ∧ idTruthy ((ls.getD i defRec).id) = false ∧
        matchStep (ls, um) r = (assignRemoteId ls i r, um)) ∧
    (∀ i, i < locals.length → idTruthy ((locals.getD i defRec).id) = true →
      ((matchRemoteToLocalRecords locals remotes).1.getD i defRec)
        = locals.getD i defRec) ∧
    ((∀ l ∈ locals, l.id = none) →
      distinctTruthyIds (matchRemoteToLocalRecords locals remotes).1) := by
  refine ⟨fun ls um r => matchStep_cases ls um r,
    fun i hi ht => matchFold_preserves remotes locals [] i hi ht,
    fun hnone => matchFold_inj remotes locals [] h2 h3 ?_ ?_⟩
  · intro r hr l hl
    rw [hnone l hl]
    intro hcon
    have ht := h2 r hr
    rw [← hcon] at ht
    cases ht
  · intro p hp q hq hpq htp
    rw [hnone _ (getD_mem hp)] at htp
    cases htp

theorem c10_matcher_invariants_witness :
    (∀ r ∈ ([{ id := some 1, name := "www.example.com", type := "A",
               content := "5.6.7.8" },
             { id := some 2, name := "www.example.com", type := "A",
               content := "9.9.9.9" }] : List Record), idTruthy r.id = true) ∧
    (([{ id := some 1, name := "www.example.com", type := "A",
         content := "5.6.7.8" },
       { id := some 2, name := "www.example.com", type := "A",
         content := "9.9.9.9" }] : List Record).Pairwise
      fun r s => r.id ≠ s.id) ∧
    distinctTruthyIds (matchRemoteToLocalRecords
      [{ name := "www.example.com", type := "A", content := "1.2.3.4" }]
      [{ id := some 1, name := "www.example.com", type := "A",
         content := "5.6.7.8" },
       { id := some 2, name := "www.example.com", type := "A",
         content := "9.9.9.9" }]).1 :=
  ⟨by decide, by decide,
   (c10_matcher_invariants
     [{ name := "www.example.com", type := "A", content := "1.2.3.4" }]
     [{ id := some 1, name := "www.example.com", type := "A",
        content := "5.6.7.8" },
      { id := some 2, name := "www.example.com", type := "A",
        content := "9.9.9.9" }] (by decide) (by decide)).2.2 (by decide)⟩

/-! ## Claim C8 — configuration errors abort before any remote contact -/

/-- If the duplicate scan of `check_local_records_config` collects nothing,
the record signatures are pairwise distinct (stated via the fold with its
accumulators generalised). -/
theorem duplicateSigs_aux (recs : List RawRecord) :
    ∀ (seen : List (String × String × String)) (dups : List RawRecord),
      (recs.foldl
        (fun (st : List (String × String × String) × List RawRecord) rec =>
          if rec.sig ∈ st.1 then (st.1, st.2 ++ [rec])
          else (st.1 ++ [rec.sig], st.2))
        (seen, dups)).2 = [] →
      dups = [] ∧ (recs.map RawRecord.sig).Nodup ∧ ∀ r ∈ recs, r.sig ∉ seen := by
  induction recs with
  | nil =>
    intro seen dups h
    exact ⟨h, by simp, by simp⟩
  | cons rec recs ih =>
    intro seen dups h
    rw [List.foldl_cons] at h
    by_cases hmem : rec.sig ∈ seen
    · rw [if_pos hmem] at h
      obtain ⟨habs, -, -⟩ := ih _ _ h
      simp at habs
    · rw [if_neg hmem] at h
      obtain ⟨hd, hnd, hnotin⟩ := ih _ _ h
      refine ⟨hd, ?_, ?_⟩
      · rw [List.map_cons, List.nodup_cons]
        refine ⟨?_, hnd⟩
        intro hcon
        obtain ⟨s, hs, hsig⟩ := List.mem_map.mp hcon
        have := hnotin s hs
        simp [hsig] at this
      · intro r hr
        rcases List.mem_cons.mp hr with rfl | hr
        · exact hmem
        · have := hnotin r hr
          simp only [List.mem_append] at this
          exact fun hcon => this (Or.inl hcon)

theorem duplicateSigs_nil_nodup (recs : List RawRecord) :
    duplicateSigs recs = [] → (recs.map RawRecord.sig).Nodup := fun h =>
  (duplicateSigs_aux recs [] [] h).2.1

theorem duplicateSigs_ne_nil (recs : List RawRecord) (i j : Nat)
    (hij : i < j) (hj : j < recs.length)
    (hsig : (recs.getD i default).sig = (recs.getD j default).sig) :
    duplicateSigs recs ≠ [] := by
  intro h
  have hnd := duplicateSigs_nil_nodup recs h
  have hi : i < recs.length := lt_trans hij hj
  rw [List.nodup_iff_injective_get] at hnd
  have hleni : i < (recs.map RawRecord.sig).length := by simpa using hi
  have hlenj : j < (recs.map RawRecord.sig).length := by simpa using hj
  have hgd : ∀ (k : Nat) (hk : k < recs.length)
      (hk2 : k < (recs.map RawRecord.sig).length),
      (recs.map RawRecord.sig).get ⟨k, hk2⟩ = (recs.getD k default).sig := by
    intro k hk hk2
    rw [List.getD_eq_getElem?_getD, List.getElem?_eq_getElem hk]
    simp
  have he : (recs.map RawRecord.sig).get ⟨i, hleni⟩
      = (recs.map RawRecord.sig).get ⟨j, hlenj⟩ := by
    rw [hgd i hi hleni, hgd j hj hlenj, hsig]
  have := hnd he
  simp only [Fin.mk.injEq] at this
  omega

/-- Claim C8: A domain whose local configuration shows any of the three
configuration errors — a record with a non-null id, two records with one
`(type, name, content)` signature, a non-integer `ttl`/`prio` — makes the
per-domain run abort (`sys.exit(1)` inside `check_local_records_config`,
called before `convert_remote_records_to_data`): no call reaches the API
wrapper, in particular the remote service is not contacted for the domain
and no mutation is issued. -/
theorem c8_config_error_aborts (nm : String) (raws : List RawRecord)
    (rems : List Record) (preserve dry inter : Bool) (ign : List String)
    (ans : List Bool) (h : hasConfigErrorClaim raws) :
    ∃ e, runDomainSync nm raws rems preserve dry inter ign ans
        = Except.error e ∧
      callsAttempted (runDomainSync nm raws rems preserve dry inter ign ans)
        = [] ∧
      mutationsExecuted (runDomainSync nm raws rems preserve dry inter ign ans)
        = [] := by
  cases hc : checkLocalRecordsConfig raws with
  | some e =>
    exact ⟨e, by simp [runDomainSync, hc], by simp [callsAttempted, runDomainSync, hc],
      by simp [mutationsExecuted, runDomainSync, hc]⟩
  | none =>
    exfalso
    have hsplit : (raws.filter fun r => r.id ≠ none) = [] ∧
        duplicateSigs raws = [] ∧
        (raws.filter fun r => !r.ttl.isInt || !r.priority.isInt) = [] := by
      unfold checkLocalRecordsConfig at hc
      split_ifs at hc with ha hb hcv
      exact ⟨not_ne_iff.mp ha, not_ne_iff.mp hb, not_ne_iff.mp hcv⟩
    obtain ⟨ha, hb, hcv⟩ := hsplit
    rcases h with ⟨r, hr, hid⟩ | ⟨i, j, hij, hj, hsig⟩ | ⟨r, hr, hval⟩
    · have : r ∈ (raws.filter fun r => r.id ≠ none) := by
        rw [List.mem_filter]
        exact ⟨hr, by simpa using hid⟩
      rw [ha] at this
      cases this
    · exact duplicateSigs_ne_nil raws i j hij hj hsig hb
    · have : r ∈ (raws.filter fun r => !r.ttl.isInt || !r.priority.isInt) := by
        rw [List.mem_filter]
        refine ⟨hr, ?_⟩
        rcases hval with hv | hv <;> simp [hv]
      rw [hcv] at this
      cases this

theorem c8_config_error_aborts_witness :
    hasConfigErrorClaim
      [{ name := "www.example.com", type := "A", content := "1.2.3.4" },
       { name := "www.example.com", type := "A", content := "1.2.3.4" }] ∧
    (∃ e, runDomainSync "example.com"
        [{ name := "www.example.com", type := "A", content := "1.2.3.4" },
         { name := "www.example.com", type := "A", content := "1.2.3.4" }]
        [] false false false ["SOA"] [] = Except.error e ∧
      callsAttempted (runDomainSync "example.com"
        [{ name := "www.example.com", type := "A", content := "1.2.3.4" },
         { name := "www.example.com", type := "A", content := "1.2.3.4" }]
        [] false false false ["SOA"] []) = [] ∧
      mutationsExecuted (runDomainSync "example.com"
        [{ name := "www.example.com", type := "A", content := "1.2.3.4" },
         { name := "www.example.com", type := "A", content := "1.2.3.4" }]
        [] false false false ["SOA"] []) = []) :=
  have hce : hasConfigErrorClaim
      [{ name := "www.example.com", type := "A", content := "1.2.3.4" },
       { name := "www.example.com", type := "A", content := "1.2.3.4" }] :=
    Or.inr (Or.inl ⟨0, 1, by omega, by decide, by decide⟩)
  ⟨hce, c8_config_error_aborts "example.com" _ [] false false false ["SOA"] [] hce⟩

/-! ## Order lemmas for the `nlargest` ranking -/

theorem insertDescStable_perm {α : Type} (gt : α → α → Bool) (x : α) :
    ∀ l : List α, (insertDescStable gt x l).Perm (x :: l)
  | [] => List.Perm.refl _
  | y :: ys => by
    unfold insertDescStable
    split
    · exact ((insertDescStable_perm gt x ys).cons y).trans (List.Perm.swap x y ys)
    · exact List.Perm.refl _

theorem sortDescStable_perm {α : Type} (gt : α → α → Bool) :
    ∀ l : List α, (sortDescStable gt l).Perm l
  | [] => List.Perm.refl _
  | x :: xs =>
    (insertDescStable_perm gt x (sortDescStable gt xs)).trans
      ((sortDescStable_perm gt xs).cons x)

theorem mem_sortDescStable {α : Type} {gt : α → α → Bool} {l : List α} {a : α} :
    a ∈ sortDescStable gt l ↔ a ∈ l :=
  (sortDescStable_perm gt l).mem_iff

theorem pyStrLt_irrefl : ∀ s : List Char, pyStrLt s s = false
  | [] => rfl
  | c :: cs => by simp [pyStrLt, pyStrLt_irrefl cs]

theorem pyStrLt_trans : ∀ a b c : List Char,
    pyStrLt a b = true → pyStrLt b c = true → pyStrLt a c = true
  | [], [], _ :: _, _, _ => rfl
  | [], _ :: _, _ :: _, _, _ => rfl
  | a :: as, b :: bs, c :: cs, hab, hbc => by
    simp only [pyStrLt] at hab hbc ⊢
    by_cases h1 : a = b
    · subst h1
      rw [if_pos rfl] at hab
      by_cases h2 : a = c
      · subst h2
        rw [if_pos rfl] at hbc ⊢
        exact pyStrLt_trans as bs cs hab hbc
      · rw [if_neg h2] at hbc ⊢
        exact hbc
    · rw [if_neg h1] at hab
      by_cases h2 : b = c
      · subst h2
        rw [if_neg h1]
        exact hab
      · rw [if_neg h2] at hbc
        have hac : a < c := lt_trans (of_decide_eq_true hab) (of_decide_eq_true hbc)
        have hne : a ≠ c := ne_of_lt hac
        rw [if_neg hne]
        exact decide_eq_true hac

theorem pyStrLt_total : ∀ a b : List Char,
    pyStrLt a b = false → pyStrLt b a = false → a = b
  | [], [], _, _ => rfl
  | [], _ :: _, hab, _ => by simp [pyStrLt] at hab
  | _ :: _, [], _, hba => by simp [pyStrLt] at hba
  | a :: as, b :: bs, hab, hba => by
    simp only [pyStrLt] at hab hba
    by_cases h1 : a = b
    · subst h1
      rw [if_pos rfl] at hab hba
      rw [pyStrLt_total as bs hab hba]
    · rw [if_neg h1] at hab
      rw [if_neg (fun h => h1 h.symm)] at hba
      have h2 := of_decide_eq_false hab
      have h3 := of_decide_eq_false hba
      rcases lt_trichotomy a b with h | h | h
      · exact absurd h h2
      · exact absurd h h1
      · exact absurd h h3

theorem pyStrLt_negtrans {a b c : List Char}
    (h1 : pyStrLt b a = false) (h2 : pyStrLt c b = false) :
    pyStrLt c a = false := by
  cases hca : pyStrLt c a with
  | false => rfl
  | true =>
    exfalso
    cases hbc : pyStrLt b c with
    | true =>
      have := pyStrLt_trans b c a hbc hca
      rw [this] at h1
      cases h1
    | false =>
      have := pyStrLt_total b c hbc h2
      subst this
      rw [hca] at h1
      cases h1

/-- Denominators produced by `calcRatioPair` are positive. -/
theorem calcRatioPair_den_pos (m t : Nat) : 0 < (calcRatioPair m t).2 := by
  unfold calcRatioPair
  split
  · omega
  · rename_i h
    simpa using Nat.pos_of_ne_zero h

theorem ratioPairOf_den_pos (a b : List Char) : 0 < (ratioPairOf a b).2 :=
  calcRatioPair_den_pos _ _

theorem scorePairGt_irrefl (p : (Nat × Nat) × List Char) :
    scorePairGt p p = false := by
  simp [scorePairGt, rGt, rEq, pyStrLt_irrefl]

theorem pyStrLt_asymm {x y : List Char} (hxy : pyStrLt x y = true) :
    pyStrLt y x = false := by
  cases hyx : pyStrLt y x with
  | false => rfl
  | true =>
    have := pyStrLt_trans x y x hxy hyx
    rw [pyStrLt_irrefl] at this
    cases this

theorem scorePairGt_asymm {p q : (Nat × Nat) × List Char}
    (h : scorePairGt p q = true) : scorePairGt q p = false := by
  obtain ⟨⟨p1, p2⟩, ps⟩ := p
  obtain ⟨⟨q1, q2⟩, qs⟩ := q
  simp only [scorePairGt, Bool.or_eq_true, Bool.and_eq_true, rGt, rEq,
    decide_eq_true_eq] at h
  simp only [scorePairGt, Bool.or_eq_false_iff, Bool.and_eq_false_iff, rGt, rEq,
    decide_eq_false_iff_not, not_lt]
  rcases h with h | ⟨he, hs⟩
  · exact ⟨by omega, Or.inl (by omega)⟩
  · exact ⟨by omega, Or.inr (pyStrLt_asymm hs)⟩

theorem scorePairGt_negtrans {p q r : (Nat × Nat) × List Char}
    (hp : 0 < p.1.2) (hq : 0 < q.1.2) (hr : 0 < r.1.2)
    (h1 : scorePairGt p q = false) (h2 : scorePairGt q r = false) :
    scorePairGt p r = false := by
  obtain ⟨⟨p1, p2⟩, ps⟩ := p
  obtain ⟨⟨q1, q2⟩, qs⟩ := q
  obtain ⟨⟨r1, r2⟩, rs⟩ := r
  simp only at hp hq hr
  simp only [scorePairGt, Bool.or_eq_false_iff, Bool.and_eq_false_iff, rGt, rEq,
    decide_eq_false_iff_not, not_lt] at h1 h2 ⊢
  obtain ⟨hA, h1s⟩ := h1
  obtain ⟨hB, h2s⟩ := h2
  constructor
  · have h3 : p1 * q2 * r2 ≤ q1 * p2 * r2 := mul_le_mul_right' hA r2
    have h4 : q1 * r2 * p2 ≤ r1 * q2 * p2 := mul_le_mul_right' hB p2
    have h5 : p1 * r2 * q2 ≤ r1 * p2 * q2 := by nlinarith
    exact Nat.le_of_mul_le_mul_right h5 hq
  · by_cases hPR : p1 * r2 = r1 * p2
    · right
      have hQP : q1 * p2 ≤ p1 * q2 := by
        have h4 : q1 * r2 * p2 ≤ r1 * q2 * p2 := mul_le_mul_right' hB p2
        have h6 : q1 * p2 * r2 ≤ p1 * q2 * r2 := by nlinarith
        exact Nat.le_of_mul_le_mul_right h6 hr
      have hePQ : p1 * q2 = q1 * p2 := le_antisymm hA hQP
      have hRQ : r1 * q2 ≤ q1 * r2 := by
        have h3 : p1 * q2 * r2 ≤ q1 * p2 * r2 := mul_le_mul_right' hA r2
        have h7 : r1 * q2 * p2 ≤ q1 * r2 * p2 := by nlinarith
        exact Nat.le_of_mul_le_mul_right h7 hp
      have heQR : q1 * r2 = r1 * q2 := le_antisymm hB hRQ
      have hs1 : pyStrLt qs ps = false := by
        rcases h1s with h | h
        · exact absurd hePQ h
        · exact h
      have hs2 : pyStrLt rs qs = false := by
        rcases h2s with h | h
        · exact absurd heQR h
        · exact h
      exact pyStrLt_negtrans hs1 hs2
    · left
      exact hPR

/-- The head of a stable descending sort is a maximum: no element of the
input list is strictly greater, provided the comparison is irreflexive,
asymmetric and negatively transitive on the input's elements. -/
theorem sortDescStable_head_max {α : Type} (gt : α → α → Bool) :
    ∀ l : List α,
      (∀ a ∈ l, gt a a = false) →
      (∀ a ∈ l, ∀ b ∈ l, gt a b = true → gt b a = false) →
      (∀ a ∈ l, ∀ b ∈ l, ∀ c ∈ l,
        gt a b = false → gt b c = false → gt a c = false) →
      ∀ {x : α} {xs : List α}, sortDescStable gt l = x :: xs →
      ∀ y ∈ l, gt y x = false := by
  intro l
  induction l with
  | nil =>
    intro _ _ _ x xs h
    cases h
  | cons a l2 ih =>
    intro hirr hasym hneg x xs hx y hy
    cases hsl : sortDescStable gt l2 with
    | nil =>
      have hl2 : l2 = [] := by
        have hlen := (sortDescStable_perm gt l2).length_eq
        rw [hsl] at hlen
        exact List.eq_nil_of_length_eq_zero hlen.symm
      subst hl2
      simp only [sortDescStable, insertDescStable] at hx
      cases hx
      have hya : y = a := by simpa using hy
      subst hya
      exact hirr y (by simp)
    | cons h t =>
      have hh2 : h ∈ l2 :=
        mem_sortDescStable.mp (by rw [hsl]; exact List.mem_cons_self h t)
      have hmax2 : ∀ z ∈ l2, gt z h = false :=
        ih (fun z hz => hirr z (List.mem_cons_of_mem a hz))
          (fun z hz w hw => hasym z (List.mem_cons_of_mem a hz)
            w (List.mem_cons_of_mem a hw))
          (fun z hz w hw v hv => hneg z (List.mem_cons_of_mem a hz)
            w (List.mem_cons_of_mem a hw) v (List.mem_cons_of_mem a hv))
          hsl
      rw [show sortDescStable gt (a :: l2)
          = insertDescStable gt a (sortDescStable gt l2) from rfl, hsl] at hx
      rw [show insertDescStable gt a (h :: t)
          = if gt h a then h :: insertDescStable gt a t else a :: h :: t
          from rfl] at hx
      split at hx
      · rename_i hgt
        injection hx with h1 _
        rcases List.mem_cons.mp hy with hya | hy2
        · rw [← h1, hya]
          exact hasym h (List.mem_cons_of_mem a hh2) a (List.mem_cons_self a l2) hgt
        · rw [← h1]
          exact hmax2 y hy2
      · rename_i hgt
        have hgtf : gt h a = false := by simpa using hgt
        injection hx with h1 _
        rcases List.mem_cons.mp hy with hya | hy2
        · rw [← h1, hya]
          exact hirr a (List.mem_cons_self a l2)
        · rw [← h1]
          exact hneg y (List.mem_cons_of_mem a hy2) h (List.mem_cons_of_mem a hh2)
            a (List.mem_cons_self a l2) (hmax2 y hy2) hgtf

/-! ## Lemmas about `get_close_matches` -/

theorem mem_gcmResult {w : List Char} {cn cd : Nat} {poss : List (List Char)}
    {p : (Nat × Nat) × List Char} :
    p ∈ gcmResult w cn cd poss ↔
      p.2 ∈ poss ∧ p = (ratioPairOf p.2 w, p.2) ∧
      rGe (realQuickRatioPairOf p.2 w) (cn, cd) = true ∧
      rGe (quickRatioPairOf p.2 w) (cn, cd) = true ∧
      rGe (ratioPairOf p.2 w) (cn, cd) = true := by
  simp only [gcmResult, List.mem_filterMap]
  constructor
  · rintro ⟨x, hx, hf⟩
    split at hf
    · rename_i hcond
      cases hf
      simp only [Bool.and_eq_true] at hcond
      exact ⟨hx, rfl, hcond.1.1, hcond.1.2, hcond.2⟩
    · cases hf
  · rintro ⟨hx, hp, h1, h2, h3⟩
    refine ⟨p.2, hx, ?_⟩
    rw [if_pos (by rw [h1, h2, h3]; rfl)]
    rw [← hp]

theorem gcmResult_den_pos {w : List Char} {cn cd : Nat}
    {poss : List (List Char)} :
    ∀ p ∈ gcmResult w cn cd poss, 0 < p.1.2 := by
  intro p hp
  have := (mem_gcmResult.mp hp).2.1
  rw [this]
  exact ratioPairOf_den_pos _ _

theorem getCloseMatches_length_le (w : List Char) (n cn cd : Nat)
    (poss : List (List Char)) :
    (getCloseMatches w n cn cd poss).length ≤ n := by
  simp only [getCloseMatches, List.length_map, List.length_take]
  omega

theorem mem_getCloseMatches {w : List Char} {n cn cd : Nat}
    {poss : List (List Char)} {mc : List Char}
    (h : mc ∈ getCloseMatches w n cn cd poss) :
    mc ∈ poss ∧
    rGe (realQuickRatioPairOf mc w) (cn, cd) = true ∧
    rGe (quickRatioPairOf mc w) (cn, cd) = true ∧
    rGe (ratioPairOf mc w) (cn, cd) = true := by
  simp only [getCloseMatches, List.mem_map] at h
  obtain ⟨p, hp, rfl⟩ := h
  have hp2 : p ∈ sortDescStable scorePairGt (gcmResult w cn cd poss) :=
    List.take_subset _ _ hp
  have hp3 : p ∈ gcmResult w cn cd poss := mem_sortDescStable.mp hp2
  have hc := mem_gcmResult.mp hp3
  exact ⟨hc.1, hc.2.2.1, hc.2.2.2.1, hc.2.2.2.2⟩

/-- The first returned close match scores at least as high as every
possibility that passes the cutoffs, in the `(score, string)` tuple order
that `nlargest` uses. -/
theorem getCloseMatches_head_max {w : List Char} {n cn cd : Nat}
    {poss : List (List Char)} {mc : List Char} {rest : List (List Char)}
    (h : getCloseMatches w n cn cd poss = mc :: rest) :
    ∀ c ∈ poss,
      rGe (realQuickRatioPairOf c w) (cn, cd) = true →
      rGe (quickRatioPairOf c w) (cn, cd) = true →
      rGe (ratioPairOf c w) (cn, cd) = true →
      scorePairGt (ratioPairOf c w, c) (ratioPairOf mc w, mc) = false := by
  intro c hc h1 h2 h3
  cases hsorted : sortDescStable scorePairGt (gcmResult w cn cd poss) with
  | nil =>
    rw [getCloseMatches, hsorted] at h
    simp at h
  | cons p ps =>
    have hpmc : p.2 = mc := by
      rw [getCloseMatches, hsorted] at h
      cases n with
      | zero => simp at h
      | succ n0 =>
        rw [List.take_succ_cons, List.map_cons] at h
        exact (List.cons.injEq _ _ _ _ ▸ h).1
    have hp3 : p ∈ gcmResult w cn cd poss :=
      mem_sortDescStable.mp (by rw [hsorted]; exact List.mem_cons_self p ps)
    have hpeq : p = (ratioPairOf mc w, mc) := by
      have := (mem_gcmResult.mp hp3).2.1
      rw [this, hpmc]
    have hcin : ((ratioPairOf c w, c) : (Nat × Nat) × List Char)
        ∈ gcmResult w cn cd poss :=
      mem_gcmResult.mpr ⟨hc, rfl, h1, h2, h3⟩
    have hmax := sortDescStable_head_max scorePairGt (gcmResult w cn cd poss)
      (fun a _ => scorePairGt_irrefl a)
      (fun a _ b _ hab => scorePairGt_asymm hab)
      (fun a ha b hb d hd hab hbd =>
        scorePairGt_negtrans (gcmResult_den_pos a ha) (gcmResult_den_pos b hb)
          (gcmResult_den_pos d hd) hab hbd)
      hsorted (ratioPairOf c w, c) hcin
    rw [hpeq] at hmax
    exact hmax

/-- In the several-candidates case the matcher acts entirely through
`closestIdx`: assignment to its head, or unmatched when it is empty. -/
theorem matchStep_multi (locals um : List Record) (rem : Record)
    (h2 : 1 < (candIdx locals rem).length) :
    matchStep (locals, um) rem =
      match closestIdx locals (candIdx locals rem) rem with
      | [] => (locals, um ++ [rem])
      | i :: _ => (assignRemoteId locals i rem, um) := by
  have h1 : ¬((candIdx locals rem).length = 1) := by omega
  simp only [matchStep]
  rw [if_neg h1, if_pos h2]

/-! ## Claim C3 — several candidates, similarity ranking -/

/-- Claim C3, counterexample: The claim says score ties are broken by
original candidate order, the first enumerated winning.  With the remote
content `"abc"` and the two equally similar candidate contents `"abx"`
(first) and `"aby"` (second) — identical similarity pairs — the matcher
assigns the remote id to the *second* candidate: `heapq.nlargest` compares
the `(score, string)` tuples, so on equal scores the lexicographically
greater content `"aby"` comes first. -/
theorem c3_counterexample :
    candIdx
      [{ name := "www.example.com", type := "TXT", content := "abx" },
       { name := "www.example.com", type := "TXT", content := "aby" }]
      { id := some 7, name := "www.example.com", type := "TXT",
        content := "abc" } = [0, 1] ∧
    ratioPairOf "abx".data "abc".data = ratioPairOf "aby".data "abc".data ∧
    (matchRemoteToLocalRecords
      [{ name := "www.example.com", type := "TXT", content := "abx" },
       { name := "www.example.com", type := "TXT", content := "aby" }]
      [{ id := some 7, name := "www.example.com", type := "TXT",
         content := "abc" }]).1.map Record.id = [none, some 7] := by
  decide

/-- Claim C3, amended: For a remote record with more than one candidate:
the kept list has at most 10 entries, each a candidate content whose
`ratio` against the remote content is at least `3/5 = 0.6`; if it is empty
the remote record is appended to the unmatched (deletion-candidate) list
without an error; if it is non-empty the remote id goes to the first
candidate index carrying the head content, and that head is maximal among
all cutoff-passing candidate contents in the `(score, content)` tuple
order of `heapq.nlargest` — ties in score are broken by *descending
lexicographic content*, not by candidate enumeration order (only
candidates with literally identical content fall back to the first
enumerated, through the `next(...)` lookup). -/
theorem c3_multiple_matches (locals um : List Record) (rem : Record)
    (h : 1 < (candIdx locals rem).length) :
    (getCloseMatches rem.content.data 10 3 5
        ((candIdx locals rem).map fun i =>
          (locals.getD i defRec).content.data)).length ≤ 10 ∧
    (∀ mc ∈ getCloseMatches rem.content.data 10 3 5
        ((candIdx locals rem).map fun i => (locals.getD i defRec).content.data),
      mc ∈ ((candIdx locals rem).map fun i =>
        (locals.getD i defRec).content.data) ∧
      rGe (ratioPairOf mc rem.content.data) (3, 5) = true) ∧
    (getCloseMatches rem.content.data 10 3 5
        ((candIdx locals rem).map fun i =>
          (locals.getD i defRec).content.data) = [] →
      matchStep (locals, um) rem = (locals, um ++ [rem])) ∧
    (∀ mc rest, getCloseMatches rem.content.data 10 3 5
        ((candIdx locals rem).map fun i => (locals.getD i defRec).content.data)
        = mc :: rest →
      (∀ c ∈ ((candIdx locals rem).map fun i =>
          (locals.getD i defRec).content.data),
        rGe (realQuickRatioPairOf c rem.content.data) (3, 5) = true →
        rGe (quickRatioPairOf c rem.content.data) (3, 5) = true →
        rGe (ratioPairOf c rem.content.data) (3, 5) = true →
        scorePairGt (ratioPairOf c rem.content.data, c)
          (ratioPairOf mc rem.content.data, mc) = false) ∧
      ∃ i, (candIdx locals rem).find?
            (fun x => decide ((locals.getD x defRec).content.data = mc))
            = some i ∧
        i ∈ candIdx locals rem ∧
        matchStep (locals, um) rem = (assignRemoteId locals i rem, um)) := by
  refine ⟨getCloseMatches_length_le _ _ _ _ _, ?_, ?_, ?_⟩
  · intro mc hmc
    have hc := mem_getCloseMatches hmc
    exact ⟨hc.1, hc.2.2.2⟩
  · intro hempty
    rw [matchStep_multi locals um rem h]
    have hcl : closestIdx locals (candIdx locals rem) rem = [] := by
      simp only [closestIdx]
      rw [hempty]
      rfl
    rw [hcl]
  · intro mc rest hkept
    refine ⟨getCloseMatches_head_max hkept, ?_⟩
    have hmc := (mem_getCloseMatches
      (hkept ▸ List.mem_cons_self mc rest)).1
    obtain ⟨i0, hi0, hfi0⟩ := List.mem_map.mp hmc
    have hfindsome : ((candIdx locals rem).find?
        (fun x => decide ((locals.getD x defRec).content.data = mc))).isSome := by
      rw [List.find?_isSome]
      exact ⟨i0, hi0, by simp only [decide_eq_true_eq]; exact hfi0⟩
    obtain ⟨i, hfind⟩ := Option.isSome_iff_exists.mp hfindsome
    refine ⟨i, hfind, List.mem_of_find?_eq_some hfind, ?_⟩
    rw [matchStep_multi locals um rem h]
    have hcl : closestIdx locals (candIdx locals rem) rem
        = i :: (rest.filterMap fun mc2 => (candIdx locals rem).find?
            fun x => decide ((locals.getD x defRec).content.data = mc2)) := by
      simp only [closestIdx, hkept, List.filterMap_cons, hfind]
    rw [hcl]

theorem c3_multiple_matches_witness :
    1 < (candIdx
      [{ name := "www.example.com", type := "TXT", content := "abx" },
       { name := "www.example.com", type := "TXT", content := "aby" }]
      { id := some 7, name := "www.example.com", type := "TXT",
        content := "abc" }).length ∧
    (getCloseMatches
      ({ id := some 7, name := "www.example.com", type := "TXT",
         content := "abc" } : Record).content.data 10 3 5
      ((candIdx
        [{ name := "www.example.com", type := "TXT", content := "abx" },
         { name := "www.example.com", type := "TXT", content := "aby" }]
        { id := some 7, name := "www.example.com", type := "TXT",
          content := "abc" }).map fun i =>
        (([{ name := "www.example.com", type := "TXT", content := "abx" },
           { name := "www.example.com", type := "TXT", content := "aby" }] :
            List Record).getD i defRec).content.data)).length ≤ 10 :=
  ⟨by decide,
   (c3_multiple_matches
     [{ name := "www.example.com", type := "TXT", content := "abx" },
      { name := "www.example.com", type := "TXT", content := "aby" }] []
     { id := some 7, name := "www.example.com", type := "TXT",
       content := "abc" } (by decide)).1⟩

end RM
